import Mathlib

/-!
Verification of the word2vec skip-gram trainer/evaluator
(`word2vec_optimized.py`) against its natural-language specification.

The Python source is shallowly embedded: lines and words of text files are
`List Char` (the source processes byte strings), vocabulary ids are `Int`
(the source uses int32 numpy arrays), real-valued float quantities are
modelled as `ℚ` where only field arithmetic is involved and as `ℝ` where
L2 normalization (square roots) is involved.
-/

/-! ## Learning-rate schedule (`Word2Vec.build_graph`, lines 267-271)

The source computes
`lr = opts.learning_rate * tf.maximum(0.0001, 1.0 - total_words_processed / words_to_train)`
where `words_to_train = words_per_epoch * epochs_to_train`. -/

/-- The learning rate as built in `build_graph`: the `max` with `0.0001` is
applied to the decay factor, and the result is then scaled by the initial
learning rate. -/
def lrCode (initialLr wordsProcessed wordsToTrain : ℚ) : ℚ :=
  initialLr * max (1 / 10000) (1 - wordsProcessed / wordsToTrain)

/-- The learning-rate formula as the specification words it: the `max` with
`0.0001` is applied after scaling by the initial learning rate. -/
def lrSpecFormula (initialLr wordsProcessed wordsToTrain : ℚ) : ℚ :=
  max (1 / 10000) (initialLr * (1 - wordsProcessed / wordsToTrain))

/-- Claim C1, counterexample: at the default initial learning rate 0.025
(= 1/40), once the decay factor bottoms out the code's learning rate is
0.025 * 0.0001 = 1/400000, which differs from the specification's
max(0.0001, ...) = 1/10000 and in particular lies strictly below the claimed
floor 0.0001. -/
theorem lrCode_ne_lrSpecFormula_at_default :
    lrCode (1 / 40) 1 1 = 1 / 400000 ∧
    lrSpecFormula (1 / 40) 1 1 = 1 / 10000 ∧
    lrCode (1 / 40) 1 1 ≠ lrSpecFormula (1 / 40) 1 1 ∧
    lrCode (1 / 40) 1 1 < 1 / 10000 := by
  refine ⟨?_, ?_, ?_, ?_⟩ <;> · simp only [lrCode, lrSpecFormula]; norm_num

/-- Claim C1 (amended): the learning rate actually used is
`initial_lr * max(0.0001, 1 - words_processed / words_to_train)`; over a run
with positive `words_to_train` and nonnegative initial rate it is
monotonically non-increasing in the processed-word counter and never drops
below `0.0001 * initial_lr`. -/
theorem lrCode_monotone_and_floor (initialLr wordsToTrain w w' : ℚ)
    (hlr : 0 ≤ initialLr) (hW : 0 < wordsToTrain) (hw : w ≤ w') :
    lrCode initialLr w' wordsToTrain ≤ lrCode initialLr w wordsToTrain ∧
    initialLr * (1 / 10000) ≤ lrCode initialLr w wordsToTrain := by
  have hdiv : w / wordsToTrain ≤ w' / wordsToTrain := by gcongr
  constructor
  · exact mul_le_mul_of_nonneg_left (max_le_max le_rfl (by linarith)) hlr
  · exact mul_le_mul_of_nonneg_left (le_max_left _ _) hlr

/-- Witness for `lrCode_monotone_and_floor` at `initial_lr = 1/40`,
`words_to_train = 10`, comparing 2 and 5 processed words. -/
theorem lrCode_monotone_and_floor_witness :
    lrCode (1 / 40) 5 10 ≤ lrCode (1 / 40) 2 10 ∧
    (1 / 40 : ℚ) * (1 / 10000) ≤ lrCode (1 / 40) 2 10 :=
  lrCode_monotone_and_floor (1 / 40) 10 2 5 (by norm_num) (by norm_num) (by norm_num)

/-! ## Mode-option resolution (`Options.__init__`, lines 162-169)

```
if self.load_data and not self.resume:
    self.epochs_to_train = 0
    if self.interactive is None:
        self.interactive = True
if self.resume:
    self.load_data = True
```
`interactive` is a tri-state flag (`None`/`False`/`True`), modelled as
`Option Bool`. -/

/-- The mode-related options of `Options`. -/
structure ModeOpts where
  epochsToTrain : Int
  interactive : Option Bool
  loadData : Bool
  resume : Bool
  deriving DecidableEq

/-- The resolution performed at the end of `Options.__init__`. -/
def resolveOpts (o : ModeOpts) : ModeOpts :=
  let o1 :=
    if o.loadData && !o.resume then
      { o with
        epochsToTrain := 0,
        interactive := if o.interactive = none then some true else o.interactive }
    else o
  if o1.resume then { o1 with loadData := true } else o1

/-- Claim C7: with `load_data` on and `resume` off, `epochs_to_train` is
forced to 0 and an unset `interactive` defaults to true (a set one is kept);
`resume` forces `load_data` on; in all other cases `epochs_to_train` and
`interactive` are unchanged. -/
theorem resolveOpts_spec (o : ModeOpts) :
    (o.loadData = true → o.resume = false →
      (resolveOpts o).epochsToTrain = 0 ∧
      (o.interactive = none → (resolveOpts o).interactive = some true) ∧
      (∀ b, o.interactive = some b → (resolveOpts o).interactive = some b)) ∧
    (o.resume = true → (resolveOpts o).loadData = true) ∧
    (¬(o.loadData = true ∧ o.resume = false) →
      (resolveOpts o).epochsToTrain = o.epochsToTrain ∧
      (resolveOpts o).interactive = o.interactive) := by
  obtain ⟨e, i, ld, rs⟩ := o
  cases ld <;> cases rs <;> cases i <;>
    simp [resolveOpts]

/-- Witness for `resolveOpts_spec`: a load-without-resume run with 7
configured epochs and unset `interactive` resolves to 0 epochs and
`interactive = some true`. -/
theorem resolveOpts_spec_witness :
    (resolveOpts ⟨7, none, true, false⟩).epochsToTrain = 0 ∧
    (resolveOpts ⟨7, none, true, false⟩).interactive = some true :=
  ⟨(resolveOpts_spec ⟨7, none, true, false⟩).1 rfl rfl |>.1,
   (resolveOpts_spec ⟨7, none, true, false⟩).1 rfl rfl |>.2.1 rfl⟩

/-! ## Final checkpoint save (`main`, lines 546-549)

```
if opts.epochs_to_train > 0 and not FLAGS.dry_run:
    model.saver.save(session, model_path, global_step=model.global_step)
``` -/

/-- The condition under which `main` performs the final checkpoint save. -/
def savesCheckpoint (o : ModeOpts) (dryRun : Bool) : Bool :=
  decide (0 < o.epochsToTrain) && !dryRun

/-- The persisted checkpoint after a run: replaced by the new snapshot when
the save condition holds, otherwise left as it was. -/
def finalCheckpoint {α : Type} (prev : Option α) (o : ModeOpts) (dryRun : Bool)
    (snapshot : α) : Option α :=
  if savesCheckpoint o dryRun then some snapshot else prev

/-- Claim C10: the checkpoint is written iff `epochs_to_train > 0` and
`dry_run` is off; a load-without-resume run (whose resolution forces
`epochs_to_train = 0`) and any dry run leave the persisted checkpoint
unchanged. -/
theorem finalCheckpoint_frame {α : Type} (o : ModeOpts) (dryRun : Bool)
    (prev : Option α) (snapshot : α) :
    (savesCheckpoint (resolveOpts o) dryRun = true ↔
      0 < (resolveOpts o).epochsToTrain ∧ dryRun = false) ∧
    (o.loadData = true → o.resume = false →
      finalCheckpoint prev (resolveOpts o) dryRun snapshot = prev) ∧
    (dryRun = true →
      finalCheckpoint prev (resolveOpts o) dryRun snapshot = prev) := by
  refine ⟨?_, ?_, ?_⟩
  · cases dryRun <;> simp [savesCheckpoint]
  · intro hld hrs
    obtain ⟨e, i, ld, rs⟩ := o
    cases hld; cases hrs
    cases i <;> cases dryRun <;>
      simp [finalCheckpoint, savesCheckpoint, resolveOpts]
  · intro hd
    cases hd
    simp [finalCheckpoint, savesCheckpoint]

/-- Witness for `finalCheckpoint_frame`: a load-without-resume run with 7
configured epochs does not overwrite an existing checkpoint. -/
theorem finalCheckpoint_frame_witness :
    finalCheckpoint (some 41) (resolveOpts ⟨7, none, true, false⟩) false (42 : Nat) =
      some 41 :=
  (finalCheckpoint_frame ⟨7, none, true, false⟩ false (some 41) 42).2.1 rfl rfl

/-! ## Per-question scoring scan (`Word2Vec.eval`, lines 428-443)

```
prio = 0
skips = 0
for j in xrange(ANALOGY_COUNT):
    if idx[question, j] == sub[question, 3]:
        correct[prio] += 1
        break
    elif idx[question, j] in sub[question, :3]:
        skips += 1
        continue
    else:
        prio += 1
skips_map[skips] += 1
```
-/

/-- Number of top predictions scanned per analogy question (`ANALOGY_COUNT`). -/
def ANALOGY_COUNT : Nat := 4

/-- The scoring loop body of `eval` over the ranked predictions of one
question, carrying the `prio` and `skips` accumulators.  Returns the priority
bucket hit (if any) and the final skip count. -/
def scanLoop (a b c d : Int) : List Int → Nat → Nat → Option Nat × Nat
  | [], _, skips => (none, skips)
  | p :: rest, prio, skips =>
    if p = d then (some prio, skips)
    else if p = a ∨ p = b ∨ p = c then scanLoop a b c d rest prio (skips + 1)
    else scanLoop a b c d rest (prio + 1) skips

/-- Scan of one question's ranked predictions, started with both
accumulators at zero as in `eval`. -/
def scanQuestion (preds : List Int) (a b c d : Int) : Option Nat × Nat :=
  scanLoop a b c d preds 0 0

/-- Predictions strictly before the first occurrence of the true answer. -/
def predsBeforeHit (preds : List Int) (d : Int) : List Int :=
  preds.takeWhile (fun p => decide (p ≠ d))

theorem scanLoop_fst (a b c d : Int) :
    ∀ (l : List Int) (prio skips : Nat),
      (scanLoop a b c d l prio skips).1 =
        if d ∈ l then
          some (prio +
            ((predsBeforeHit l d).filter
              (fun p => decide (¬(p = a ∨ p = b ∨ p = c)))).length)
        else none := by
  intro l
  induction l with
  | nil => intro prio skips; simp [scanLoop]
  | cons p rest ih =>
    intro prio skips
    by_cases hpd : p = d
    · subst hpd
      simp [scanLoop, predsBeforeHit]
    · by_cases hq : p = a ∨ p = b ∨ p = c
      · have hcond : ¬(¬p = a ∧ ¬p = b ∧ ¬p = c) := by tauto
        simp only [scanLoop, if_neg hpd, if_pos hq, ih]
        by_cases hmem : d ∈ rest <;>
          simp [predsBeforeHit, List.takeWhile_cons, List.filter_cons,
            hpd, hq, hcond, hmem, List.mem_cons, Ne.symm hpd]
      · have hcond : ¬p = a ∧ ¬p = b ∧ ¬p = c := by tauto
        simp only [scanLoop, if_neg hpd, if_neg hq, ih]
        by_cases hmem : d ∈ rest <;>
          · simp [predsBeforeHit, List.takeWhile_cons, List.filter_cons,
              hpd, hq, hcond, hmem, List.mem_cons, Ne.symm hpd]
            try omega

theorem scanLoop_snd (a b c d : Int) :
    ∀ (l : List Int) (prio skips : Nat),
      (scanLoop a b c d l prio skips).2 =
        skips +
          ((predsBeforeHit l d).filter
            (fun p => decide (p = a ∨ p = b ∨ p = c))).length := by
  intro l
  induction l with
  | nil => intro prio skips; simp [scanLoop, predsBeforeHit]
  | cons p rest ih =>
    intro prio skips
    by_cases hpd : p = d
    · subst hpd
      simp [scanLoop, predsBeforeHit]
    · by_cases hq : p = a ∨ p = b ∨ p = c
      · simp only [scanLoop, if_neg hpd, if_pos hq, ih]
        simp [predsBeforeHit, List.takeWhile_cons, List.filter_cons, hpd, hq]
        omega
      · simp only [scanLoop, if_neg hpd, if_neg hq, ih]
        simp [predsBeforeHit, List.takeWhile_cons, List.filter_cons, hpd, hq]

/-- Claim C2: scanning the ranked predictions, the hit (when the true answer
`d` occurs among them) lands in the priority bucket counting the preceding
misses that are not skips; predictions equal to `a`, `b` or `c` before the
hit are counted as skips and consume no priority slot; only predictions
before the first occurrence of `d` matter (the scan stops at the hit); if
`d` does not occur, no bucket is hit; and the skip count never exceeds the
number of predictions (hence lies in 0..4 for the 4 ranked predictions). -/
theorem scanQuestion_spec (preds : List Int) (a b c d : Int) :
    ((scanQuestion preds a b c d).1 =
      if d ∈ preds then
        some (((predsBeforeHit preds d).filter
          (fun p => decide (¬(p = a ∨ p = b ∨ p = c)))).length)
      else none) ∧
    ((scanQuestion preds a b c d).2 =
      ((predsBeforeHit preds d).filter
        (fun p => decide (p = a ∨ p = b ∨ p = c))).length) ∧
    (scanQuestion preds a b c d).2 ≤ preds.length := by
  refine ⟨?_, ?_, ?_⟩
  · simpa using scanLoop_fst a b c d preds 0 0
  · simpa using scanLoop_snd a b c d preds 0 0
  · have h := scanLoop_snd a b c d preds 0 0
    have h1 : ((predsBeforeHit preds d).filter
        (fun p => decide (p = a ∨ p = b ∨ p = c))).length ≤
        (predsBeforeHit preds d).length := List.length_filter_le _ _
    have h2 : (predsBeforeHit preds d).length ≤ preds.length :=
      (List.takeWhile_sublist _).length_le
    simp only [scanQuestion] at *
    omega

/-! ## Analogy-file line parsing (`Word2Vec.read_analogies.read_file`, lines 203-218)

```
for line in analogy_f:
    line = line.strip()
    if not line or line.startswith(b":"):  # Skip comments and empty lines.
        continue
    words = line.lower().split(b" ")
    ids = [self._word2id.get(w.strip()) for w in words]
    if None in ids or len(ids) != 4:
        questions_skipped += 1
    else:
        questions.append(np.array(ids))
```
Lines and words are byte strings, modelled as `List Char`. -/

/-- ASCII whitespace stripped by Python's `bytes.strip()`. -/
def isSpaceChar (c : Char) : Bool :=
  c = ' ' || c = '\t' || c = '\n' || c = '\r' || c = '\x0b' || c = '\x0c'

/-- Python `bytes.strip()`: remove leading and trailing ASCII whitespace. -/
def stripChars (l : List Char) : List Char :=
  ((l.dropWhile isSpaceChar).reverse.dropWhile isSpaceChar).reverse

/-- Python `bytes.lower()`: ASCII-lowercase every character. -/
def lowerChars (l : List Char) : List Char := l.map Char.toLower

/-- Python `bytes.split(b" ")`: split on every single space, keeping empty
pieces. -/
def splitOnSpace : List Char → List (List Char)
  | [] => [[]]
  | c :: rest =>
    match splitOnSpace rest with
    | [] => [[]]
    | w :: ws => if c = ' ' then [] :: w :: ws else (c :: w) :: ws

/-- Python `bytes.startswith(b":")`. -/
def startsWithColon : List Char → Bool
  | [] => false
  | c :: _ => c = ':'

/-- `self._word2id.get(w)`: the id of a word in the vocabulary list, `none`
when absent.  `_word2id` maps each vocabulary word to its index in
`_id2word` (`build_graph`, lines 249-251). -/
def word2idGet (vocab : List (List Char)) (w : List Char) : Option Int :=
  (vocab.findIdx? (fun v => decide (v = w))).map Int.ofNat

/-- A line that `read_file` ignores: blank after stripping, or a `:` section
header. -/
def lineIgnored (rawLine : List Char) : Bool :=
  decide (stripChars rawLine = []) || startsWithColon (stripChars rawLine)

/-- The per-word id lookups of one data line: strip, lowercase, split on
single spaces, strip each word and look it up. -/
def lineIds (w2id : List Char → Option Int) (rawLine : List Char) :
    List (Option Int) :=
  (splitOnSpace (lowerChars (stripChars rawLine))).map (fun w => w2id (stripChars w))

/-- A non-ignored line that `read_file` skips (and tallies): some word is
unknown, or the line does not have exactly four space-separated words. -/
def lineBad (w2id : List Char → Option Int) (rawLine : List Char) : Bool :=
  decide (none ∈ lineIds w2id rawLine) || decide ((lineIds w2id rawLine).length ≠ 4)

/-- One iteration of the `read_file` loop over `(questions, questions_skipped)`. -/
def readFileStep (w2id : List Char → Option Int)
    (st : List (List Int) × Nat) (rawLine : List Char) : List (List Int) × Nat :=
  if lineIgnored rawLine then st
  else if lineBad w2id rawLine then (st.1, st.2 + 1)
  else (st.1 ++ [(lineIds w2id rawLine).reduceOption], st.2)

/-- `read_file`: fold the loop over all lines of the file, starting from no
questions and a zero skip tally. -/
def readFileQ (w2id : List Char → Option Int) (lines : List (List Char)) :
    List (List Int) × Nat :=
  lines.foldl (readFileStep w2id) ([], 0)

theorem readFileQ_foldl (w2id : List Char → Option Int) (lines : List (List Char)) :
    ∀ acc : List (List Int) × Nat,
      lines.foldl (readFileStep w2id) acc =
        (acc.1 ++ (lines.filter (fun l => !lineIgnored l && !lineBad w2id l)).map
            (fun l => (lineIds w2id l).reduceOption),
         acc.2 + (lines.filter (fun l => !lineIgnored l && lineBad w2id l)).length) := by
  induction lines with
  | nil => intro acc; simp
  | cons l rest ih =>
    intro acc
    by_cases hig : lineIgnored l
    · simp only [List.foldl_cons, List.filter_cons, readFileStep, if_pos hig, hig]
      simpa using ih acc
    · by_cases hbad : lineBad w2id l
      · simp only [List.foldl_cons, List.filter_cons, readFileStep, if_neg hig,
          if_pos hbad, hig, hbad]
        simpa [Nat.add_comm, Nat.add_assoc, Nat.add_left_comm] using
          ih (acc.1, acc.2 + 1)
      · simp only [List.foldl_cons, List.filter_cons, readFileStep, if_neg hig,
          if_neg hbad, hig, hbad]
        simpa [List.append_assoc] using ih (acc.1 ++ [(lineIds w2id l).reduceOption], acc.2)

/-- Claim C6: `read_file` ignores blank lines and `:` headers; every other
line with an unknown word or without exactly four space-separated words is
counted in the skip tally and produces no question (the load never aborts,
being a total fold); every remaining line is mapped to its list of ids, and
every produced question has exactly 4 ids. -/
theorem readFileQ_spec (w2id : List Char → Option Int) (lines : List (List Char)) :
    readFileQ w2id lines =
      ((lines.filter (fun l => !lineIgnored l && !lineBad w2id l)).map
          (fun l => (lineIds w2id l).reduceOption),
       (lines.filter (fun l => !lineIgnored l && lineBad w2id l)).length) ∧
    ∀ q ∈ (readFileQ w2id lines).1, q.length = 4 := by
  have hfold := readFileQ_foldl w2id lines ([], 0)
  constructor
  · simpa [readFileQ] using hfold
  · intro q hq
    rw [readFileQ, hfold] at hq
    simp only [List.nil_append, List.mem_map, List.mem_filter] at hq
    obtain ⟨l, ⟨_, hgood⟩, rfl⟩ := hq
    simp only [Bool.and_eq_true, Bool.not_eq_true'] at hgood
    have hb : lineBad w2id l = false := hgood.2
    simp only [lineBad, Bool.or_eq_false_iff, decide_eq_false_iff_not] at hb
    obtain ⟨hnone, hlen⟩ := hb
    have : ∀ x ∈ lineIds w2id l, Option.isSome x := by
      intro x hx
      cases x with
      | none => exact absurd hx hnone
      | some v => rfl
    rw [List.reduceOption_length_eq_iff.mpr this]
    omega

/-! ## Eval accuracy accounting (`Word2Vec.eval`, lines 404-453)

Per block, `eval` runs the scoring scan over every loaded question and
reports `correct[p] * 100.0 / total` for each priority bucket `p`, the skip
histogram, and `guessed * 100.0 / total` where `guessed = sum(correct.values())`
and `total = questions.shape[0]` is the number of *loaded* questions.  The
model predictions are a parameter (`_predict` reads the embedding snapshot). -/

/-- The scoring scan of one loaded question, as run by `eval`: predictions
are ranked by the model, `a b c` are the first three ids, `d` the fourth. -/
def questionResult (predict : List Int → List Int) (q : List Int) :
    Option Nat × Nat :=
  scanQuestion (predict q) (q.getD 0 0) (q.getD 1 0) (q.getD 2 0) (q.getD 3 0)

/-- `correct[p]` after the eval loop: the number of questions hit in priority
bucket `p`. -/
def correctCount (predict : List Int → List Int) (qs : List (List Int))
    (p : Nat) : Nat :=
  qs.countP (fun q => decide ((questionResult predict q).1 = some p))

/-- `skips_map[s]` after the eval loop: the number of questions with skip
count `s`. -/
def skipsMapCount (predict : List Int → List Int) (qs : List (List Int))
    (s : Nat) : Nat :=
  qs.countP (fun q => decide ((questionResult predict q).2 = s))

/-- `guessed = sum(correct.values())` over the buckets `0..ANALOGY_COUNT-1`. -/
def guessedCount (predict : List Int → List Int) (qs : List (List Int)) : Nat :=
  ((List.range ANALOGY_COUNT).map (correctCount predict qs)).sum

/-- The reported per-bucket accuracy `correct[p] * 100.0 / total`. -/
def bucketPct (predict : List Int → List Int) (qs : List (List Int))
    (p : Nat) : ℚ :=
  (correctCount predict qs p : ℚ) * 100 / (qs.length : ℚ)

/-- The reported aggregate accuracy `guessed * 100.0 / total`. -/
def aggregatePct (predict : List Int → List Int) (qs : List (List Int)) : ℚ :=
  (guessedCount predict qs : ℚ) * 100 / (qs.length : ℚ)

/-! ### The end-to-end scenario of claim C3

Four question lines over the vocabulary a..f (ids 0..5): `a b c d` answered
correctly at rank 0; `b c d e` answered correctly after one miss, one
known-word skip and another miss; `c d e f` a total miss; `a b c zz`
containing the unknown word `zz`, hence skipped at load. -/

/-- Scenario vocabulary: words a..f with ids 0..5. -/
def scnVocab : List (List Char) := [['a'], ['b'], ['c'], ['d'], ['e'], ['f']]

/-- Scenario word-to-id lookup. -/
def scnW2id : List Char → Option Int := word2idGet scnVocab

/-- Scenario analogy file: a section header and four question lines, the
last containing the unknown word `zz`. -/
def scnLines : List (List Char) :=
  [[':', ' ', 't', 'e', 's', 't'],
   ['a', ' ', 'b', ' ', 'c', ' ', 'd'],
   ['b', ' ', 'c', ' ', 'd', ' ', 'e'],
   ['c', ' ', 'd', ' ', 'e', ' ', 'f'],
   ['a', ' ', 'b', ' ', 'c', ' ', 'z', 'z']]

/-- The questions loaded from the scenario file. -/
def scnQuestions : List (List Int) := (readFileQ scnW2id scnLines).1

/-- Scenario model predictions: the first question is hit at rank 0; the
second gets a miss, a collision with its known word `b` (id 1), a miss, and
then the true answer; the third gets four misses. -/
def scnPredict (q : List Int) : List Int :=
  if q = [0, 1, 2, 3] then [3, 9, 9, 8]
  else if q = [1, 2, 3, 4] then [7, 1, 8, 4]
  else [9, 10, 11, 12]

/-- Witness for `readFileQ_spec`: the scenario file below yields the
question `[0, 1, 2, 3]`, which indeed has 4 ids. -/
theorem readFileQ_spec_witness :
    ([(0 : Int), 1, 2, 3]).length = 4 :=
  (readFileQ_spec scnW2id scnLines).2 [0, 1, 2, 3] (by decide)

/-- Claim C3, counterexample: in the scenario, 3 questions are loaded (one
skipped at load) and the denominator is 3, so the first accuracy bucket
reports 100/3 % ≈ 33.3 %, not the 25 % stated by the claim. -/
theorem evalScenario_bucket_not_25 :
    scnQuestions = [[0, 1, 2, 3], [1, 2, 3, 4], [2, 3, 4, 5]] ∧
    (readFileQ scnW2id scnLines).2 = 1 ∧
    bucketPct scnPredict scnQuestions 0 = 100 / 3 ∧
    bucketPct scnPredict scnQuestions 0 ≠ 25 := by
  have hq : scnQuestions = [[0, 1, 2, 3], [1, 2, 3, 4], [2, 3, 4, 5]] := by decide
  have hc : correctCount scnPredict scnQuestions 0 = 1 := by decide
  have hlen : scnQuestions.length = 3 := by decide
  have hb : bucketPct scnPredict scnQuestions 0 = 100 / 3 := by
    rw [bucketPct, hc, hlen]; norm_num
  exact ⟨hq, by decide, hb, by rw [hb]; norm_num⟩

/-- Claim C3 (amended): in the scenario the evaluator loads 3 of the 4
questions (1 skipped at load), scores a rank-0 hit, a rank-2 hit with one
known-word skip, and a total miss, and reports accuracy buckets
[33.3 %, 0 %, 33.3 %, 0 %] (i.e. [100/3, 0, 100/3, 0]), a skip histogram
with exactly one question at skip count 1 (and two at 0), and aggregate
accuracy 2/3 over denominator 3 (loaded questions only). -/
theorem evalScenario_report :
    scnQuestions.length = 3 ∧
    (readFileQ scnW2id scnLines).2 = 1 ∧
    questionResult scnPredict [0, 1, 2, 3] = (some 0, 0) ∧
    questionResult scnPredict [1, 2, 3, 4] = (some 2, 1) ∧
    questionResult scnPredict [2, 3, 4, 5] = (none, 0) ∧
    bucketPct scnPredict scnQuestions 0 = 100 / 3 ∧
    bucketPct scnPredict scnQuestions 1 = 0 ∧
    bucketPct scnPredict scnQuestions 2 = 100 / 3 ∧
    bucketPct scnPredict scnQuestions 3 = 0 ∧
    skipsMapCount scnPredict scnQuestions 0 = 2 ∧
    skipsMapCount scnPredict scnQuestions 1 = 1 ∧
    skipsMapCount scnPredict scnQuestions 2 = 0 ∧
    skipsMapCount scnPredict scnQuestions 3 = 0 ∧
    skipsMapCount scnPredict scnQuestions 4 = 0 ∧
    guessedCount scnPredict scnQuestions = 2 ∧
    aggregatePct scnPredict scnQuestions = 200 / 3 := by
  have hlen : scnQuestions.length = 3 := by decide
  have hc0 : correctCount scnPredict scnQuestions 0 = 1 := by decide
  have hc1 : correctCount scnPredict scnQuestions 1 = 0 := by decide
  have hc2 : correctCount scnPredict scnQuestions 2 = 1 := by decide
  have hc3 : correctCount scnPredict scnQuestions 3 = 0 := by decide
  have hg : guessedCount scnPredict scnQuestions = 2 := by decide
  refine ⟨hlen, by decide, by decide, by decide, by decide, ?_, ?_, ?_, ?_,
    by decide, by decide, by decide, by decide, by decide, hg, ?_⟩
  · rw [bucketPct, hc0, hlen]; norm_num
  · rw [bucketPct, hc1, hlen]; norm_num
  · rw [bucketPct, hc2, hlen]; norm_num
  · rw [bucketPct, hc3, hlen]; norm_num
  · rw [aggregatePct, hg, hlen]; norm_num

/-! ## Numbered multi-file loading (`Word2Vec.read_analogies`, lines 220-229)

```
blocks = []
if '%d' in self._options.eval_data:
    idx = 1
    while os.path.exists(self._options.eval_data % idx):
        blocks.append(read_file(self._options.eval_data % idx))
        idx += 1
else:
    blocks.append(read_file(self._options.eval_data))
```
The file system is modelled as a partial map from paths to file contents;
`open` on a missing path raises (modelled as `none` for the whole load).
The unbounded `while` is modelled with a fuel parameter: any fuel larger
than the number of consecutive existing files yields the loop's result. -/

/-- The ASCII digit character for `n < 10`. -/
def digitChar (n : Nat) : Char := Char.ofNat (48 + n)

/-- Decimal digits of `n`, most significant first, computed with explicit
fuel (structural recursion on the fuel). -/
def natReprCore : Nat → Nat → List Char
  | 0, _ => []
  | fuel + 1, n =>
    if n < 10 then [digitChar n]
    else natReprCore fuel (n / 10) ++ [digitChar (n % 10)]

/-- Python `'%d' % n` for a natural number: its decimal digits. -/
def natRepr (n : Nat) : List Char := natReprCore (n + 1) n

/-- Python `'%d' in s`: whether the pattern `%d` occurs in the path. -/
def hasPctD : List Char → Bool
  | [] => false
  | '%' :: 'd' :: _ => true
  | _ :: rest => hasPctD rest

/-- Python `s % n` for a single `%d` pattern: substitute the decimal digits
of `n` for the first occurrence of `%d`. -/
def fmtIdx : List Char → Nat → List Char
  | [], _ => []
  | '%' :: 'd' :: rest, n => natRepr n ++ rest
  | c :: rest, n => c :: fmtIdx rest n

/-- The numbered-pattern `while` loop: read files at successive indices until
the first index whose file does not exist. -/
def readNumbered (fs : List Char → Option (List (List Char)))
    (w2id : List Char → Option Int) (evalData : List Char) :
    Nat → Nat → List (List (List Int) × Nat)
  | _, 0 => []
  | idx, fuel + 1 =>
    match fs (fmtIdx evalData idx) with
    | none => []
    | some ls => readFileQ w2id ls :: readNumbered fs w2id evalData (idx + 1) fuel

/-- `read_analogies`: numbered blocks when the path contains `%d`, otherwise
a single required file whose absence is fatal (`none`). -/
def readAnalogies (fs : List Char → Option (List (List Char)))
    (w2id : List Char → Option Int) (evalData : List Char) (fuel : Nat) :
    Option (List (List (List Int) × Nat)) :=
  if hasPctD evalData then some (readNumbered fs w2id evalData 1 fuel)
  else (fs evalData).map (fun ls => [readFileQ w2id ls])

/-- Claim C5, counterexample: with the numbered pattern `q-%d` and no file
present at all, the load succeeds with an empty block list — it is not
fatal, unlike the claimed behavior; only the missing single, non-patterned
file is fatal. -/
theorem readAnalogies_missing_first_not_fatal :
    readAnalogies (fun _ => none) (fun _ => none) ['q', '-', '%', 'd'] 5 = some [] ∧
    readAnalogies (fun _ => none) (fun _ => none) ['q', '-', '1'] 5 = none := by
  constructor <;> rfl

theorem readNumbered_run (fs : List Char → Option (List (List Char)))
    (w2id : List Char → Option Int) (ed : List Char)
    (ls : Nat → List (List Char)) :
    ∀ (n start fuel : Nat),
      (∀ i, start ≤ i → i < start + n → fs (fmtIdx ed i) = some (ls i)) →
      fs (fmtIdx ed (start + n)) = none →
      n < fuel →
      readNumbered fs w2id ed start fuel =
        (List.range n).map (fun j => readFileQ w2id (ls (start + j))) := by
  intro n
  induction n with
  | zero =>
    intro start fuel hex hmiss hfuel
    cases fuel with
    | zero => omega
    | succ f =>
      rw [Nat.add_zero] at hmiss
      simp only [readNumbered, hmiss]
      simp
  | succ n ih =>
    intro start fuel hex hmiss hfuel
    cases fuel with
    | zero => omega
    | succ f =>
      have h1 : fs (fmtIdx ed start) = some (ls start) := hex start le_rfl (by omega)
      simp only [readNumbered, h1]
      rw [ih (start + 1) f
        (fun i hi1 hi2 => hex i (by omega) (by omega))
        (by rw [show start + 1 + n = start + (n + 1) by omega]; exact hmiss)
        (by omega)]
      have harith : ∀ j, start + 1 + j = start + (j + 1) := fun j => by omega
      rw [List.range_succ_eq_map]
      simp [List.map_map, Function.comp_def, harith]

/-- Claim C5 (amended): with the numbered `%d` pattern, question files are
read at indices 1, 2, … until the first missing index; a missing (N+1)-st
file merely ends the sequence after N blocks, with no error — in particular
a missing first file yields a successful load of zero blocks, not a fatal
failure; only a missing single, non-patterned file is fatal. -/
theorem readAnalogies_numbered_spec
    (fs : List Char → Option (List (List Char)))
    (w2id : List Char → Option Int) (ed : List Char)
    (ls : Nat → List (List Char)) (n fuel : Nat)
    (hpat : hasPctD ed = true)
    (hex : ∀ i, 1 ≤ i → i ≤ n → fs (fmtIdx ed i) = some (ls i))
    (hmiss : fs (fmtIdx ed (n + 1)) = none)
    (hfuel : n < fuel) :
    readAnalogies fs w2id ed fuel =
      some ((List.range n).map (fun j => readFileQ w2id (ls (1 + j)))) ∧
    ∀ ed2, hasPctD ed2 = false → fs ed2 = none →
      readAnalogies fs w2id ed2 fuel = none := by
  constructor
  · rw [readAnalogies, if_pos hpat]
    rw [readNumbered_run fs w2id ed ls n 1 fuel
      (fun i hi1 hi2 => hex i hi1 (by omega))
      (by rw [show 1 + n = n + 1 by omega]; exact hmiss) hfuel]
  · intro ed2 hp2 hfs2
    rw [readAnalogies, if_neg (by simp [hp2]), hfs2]
    rfl

/-- Eval-data path for the witness of `readAnalogies_numbered_spec`. -/
def numEdPath : List Char := ['q', '%', 'd']

/-- File system for the witness of `readAnalogies_numbered_spec`: empty files
`q1` and `q2` exist, `q3` does not. -/
def numFsys : List Char → Option (List (List Char)) :=
  fun p => if p = ['q', '1'] ∨ p = ['q', '2'] then some [] else none

/-- Witness for `readAnalogies_numbered_spec`: with files `q1`, `q2` present
and `q3` missing, the load returns exactly two (empty) blocks. -/
theorem readAnalogies_numbered_spec_witness :
    readAnalogies numFsys (fun _ => none) numEdPath 5 = some [([], 0), ([], 0)] := by
  have h := (readAnalogies_numbered_spec numFsys (fun _ => none) numEdPath
    (fun _ => []) 2 5 rfl
    (by intro i hi1 hi2; interval_cases i <;> rfl) rfl (by norm_num)).1
  rw [h]; rfl

/-! ## Vocabulary file round trip (`Word2Vec.save_vocab`, lines 293-300)

```
with open(os.path.join(opts.save_path, "vocab.txt"), "w") as f:
    for i in xrange(opts.vocab_size):
        vocab_word = tf.compat.as_text(opts.vocab_words[i])
        f.write("%s %d\n" % (vocab_word, opts.vocab_counts[i]))
```
The writer emits one line per vocabulary entry, in id order (`vocab_words`
is ordered by descending frequency with the unknown sentinel at its reserved
position, as produced by the skipgram vocabulary op).  The repository has no
full reader for this file, so the reader is modelled from the spec. -/

/-- The lines written by `save_vocab`: for each entry in id order, the word,
a space, and the decimal count (`"%s %d\n"`). -/
def vocabLines (vocab : List (List Char × Nat)) : List (List Char) :=
  vocab.map (fun e => e.1 ++ ' ' :: natRepr e.2)

/-- Modelled from the spec: re-reading splits a `"word count"` line at its
(first) space.  The repository itself re-reads only counts (`freq.py`). -/
def splitFirstAt (sep : Char) : List Char → List Char × List Char
  | [] => ([], [])
  | c :: rest =>
    if c = sep then ([], rest)
    else ((c :: (splitFirstAt sep rest).1), (splitFirstAt sep rest).2)

/-- The numeric value of an ASCII digit character. -/
def charDigitVal (c : Char) : Option Nat :=
  if 48 ≤ c.toNat ∧ c.toNat ≤ 57 then some (c.toNat - 48) else none

/-- Left fold of decimal digits onto an accumulator; `none` on a non-digit. -/
def pnFold : List Char → Nat → Option Nat
  | [], acc => some acc
  | c :: cs, acc =>
    match charDigitVal c with
    | none => none
    | some d => pnFold cs (acc * 10 + d)

/-- Modelled from the spec: parse a decimal count. -/
def parseNat (l : List Char) : Option Nat :=
  if l = [] then none else pnFold l 0

/-- Modelled from the spec: parse one `"word count"` vocabulary line back
into a (word, count) pair. -/
def parseVocabLine (line : List Char) : Option (List Char × Nat) :=
  (parseNat (splitFirstAt ' ' line).2).map (fun n => ((splitFirstAt ' ' line).1, n))

/-- Modelled from the spec: parse a written vocabulary file back into its
(word, count) entries, ids being the line positions. -/
def parseVocab (lines : List (List Char)) : List (List Char × Nat) :=
  lines.filterMap parseVocabLine

theorem charDigitVal_digitChar (n : Nat) (h : n < 10) :
    charDigitVal (digitChar n) = some n := by
  interval_cases n <;> decide

theorem pnFold_append (l1 l2 : List Char) :
    ∀ acc, pnFold (l1 ++ l2) acc = (pnFold l1 acc).bind (fun b => pnFold l2 b) := by
  induction l1 with
  | nil => intro acc; simp [pnFold]
  | cons c cs ih =>
    intro acc
    simp only [List.cons_append, pnFold]
    cases charDigitVal c with
    | none => simp
    | some d => simpa using ih (acc * 10 + d)

theorem pnFold_natReprCore :
    ∀ (fuel n : Nat), n < fuel → ∀ acc,
      pnFold (natReprCore fuel n) acc =
        some (acc * 10 ^ (natReprCore fuel n).length + n) := by
  intro fuel
  induction fuel with
  | zero => omega
  | succ f ih =>
    intro n hn acc
    by_cases h10 : n < 10
    · simp only [natReprCore, if_pos h10, pnFold, charDigitVal_digitChar n h10]
      simp
    · have hdiv : n / 10 < f := by
        have h1 : n / 10 < n := Nat.div_lt_self (by omega) (by omega)
        omega
      simp only [natReprCore, if_neg h10]
      rw [pnFold_append, ih (n / 10) hdiv acc]
      simp only [Option.some_bind, pnFold, charDigitVal_digitChar (n % 10) (by omega),
        List.length_append, List.length_singleton]
      congr 1
      have hdm : 10 * (n / 10) + n % 10 = n := Nat.div_add_mod n 10
      rw [pow_succ]
      ring_nf
      omega

theorem natReprCore_ne_nil (fuel n : Nat) (h : n < fuel) :
    natReprCore fuel n ≠ [] := by
  cases fuel with
  | zero => omega
  | succ f =>
    by_cases h10 : n < 10 <;> simp [natReprCore, h10]

theorem parseNat_natRepr (n : Nat) : parseNat (natRepr n) = some n := by
  rw [natRepr, parseNat, if_neg (natReprCore_ne_nil (n + 1) n (by omega))]
  rw [pnFold_natReprCore (n + 1) n (by omega) 0]
  simp

theorem splitFirstAt_space (w rest : List Char) (hw : ' ' ∉ w) :
    splitFirstAt ' ' (w ++ ' ' :: rest) = (w, rest) := by
  induction w with
  | nil => simp [splitFirstAt]
  | cons c cs ih =>
    have hc : ¬c = ' ' := fun h => hw (h ▸ List.mem_cons_self c cs)
    have hcs : ' ' ∉ cs := fun h => hw (List.mem_cons_of_mem c h)
    simp only [List.cons_append, splitFirstAt, if_neg hc, List.append_eq, ih hcs]

theorem parseVocabLine_roundtrip (w : List Char) (c : Nat) (hw : ' ' ∉ w) :
    parseVocabLine (w ++ ' ' :: natRepr c) = some (w, c) := by
  rw [parseVocabLine, splitFirstAt_space w (natRepr c) hw]
  simp [parseNat_natRepr]

/-- Claim C8: `save_vocab` writes exactly one `"word count"` line per
vocabulary entry, in id order, and re-reading the written file recovers the
identical (word, id, count) triples — the parsed list equals the original
entry list, entry `i` of the file being entry `i` of the vocabulary.
(Vocabulary words contain no space: the corpus is whitespace-tokenized.) -/
theorem saveVocab_roundtrip (vocab : List (List Char × Nat))
    (hw : ∀ e ∈ vocab, ' ' ∉ e.1) :
    (vocabLines vocab).length = vocab.length ∧
    parseVocab (vocabLines vocab) = vocab := by
  constructor
  · simp [vocabLines]
  · induction vocab with
    | nil => rfl
    | cons e rest ih =>
      have he : ' ' ∉ e.1 := hw e (List.mem_cons_self e rest)
      have hrest : ∀ x ∈ rest, ' ' ∉ x.1 := fun x hx => hw x (List.mem_cons_of_mem e hx)
      simp only [vocabLines, List.map_cons, parseVocab, List.filterMap_cons,
        parseVocabLine_roundtrip e.1 e.2 he]
      have := ih hrest
      simp only [parseVocab, vocabLines] at this
      simp [this]

/-- Word list for the witness of `saveVocab_roundtrip`. -/
def rtVocab : List (List Char × Nat) :=
  [(['U', 'N', 'K'], 419), (['t', 'h', 'e'], 27), (['o', 'f'], 12)]

/-- Witness for `saveVocab_roundtrip` on a three-entry vocabulary. -/
theorem saveVocab_roundtrip_witness :
    (vocabLines rtVocab).length = rtVocab.length ∧
    parseVocab (vocabLines rtVocab) = rtVocab :=
  saveVocab_roundtrip rtVocab (by decide)

/-! ## Interactive query id lookup (`Word2Vec.analogy`, lines 460-470, and
`Word2Vec.nearby`, lines 472-477)

```
wid = np.array([[self._word2id.get(w, 0) for w in [w0, w1, w2]]])
...
ids = np.array([self._word2id.get(x, 0) for x in words])
```
Both queries look words up with `dict.get(w, 0)`: an absent word silently
becomes the unknown-sentinel id 0. -/

/-- `self._word2id.get(w, 0)`: the id of a word, or the sentinel 0 when the
word is absent from the vocabulary. -/
def word2idGetD (vocab : List (List Char)) (w : List Char) : Int :=
  (word2idGet vocab w).getD 0

/-- The id triple `analogy(w0, w1, w2)` feeds to `_predict`. -/
def analogyWid (vocab : List (List Char)) (w0 w1 w2 : List Char) : List Int :=
  [word2idGetD vocab w0, word2idGetD vocab w1, word2idGetD vocab w2]

/-- The id array `nearby(words)` feeds to the nearby-neighbors graph. -/
def nearbyIds (vocab : List (List Char)) (ws : List (List Char)) : List Int :=
  ws.map (word2idGetD vocab)

/-- Claim C9: `analogy` and `nearby` map every word that is absent from the
vocabulary to the sentinel id 0 instead of failing, a present word to its
vocabulary index, and always produce full id lists (3 ids for `analogy`, one
per input word for `nearby`), each id being 0 or a valid row index — the
query always proceeds. -/
theorem interactiveLookup_spec (vocab : List (List Char))
    (w0 w1 w2 : List Char) (ws : List (List Char)) :
    (∀ w, (∀ v ∈ vocab, v ≠ w) → word2idGetD vocab w = 0) ∧
    (∀ w i, word2idGet vocab w = some i → word2idGetD vocab w = i) ∧
    (analogyWid vocab w0 w1 w2).length = 3 ∧
    (nearbyIds vocab ws).length = ws.length ∧
    (∀ id, id ∈ analogyWid vocab w0 w1 w2 ∨ id ∈ nearbyIds vocab ws →
      0 ≤ id ∧ (id = 0 ∨ id.toNat < vocab.length)) := by
  have hbase : ∀ w, 0 ≤ word2idGetD vocab w ∧
      (word2idGetD vocab w = 0 ∨ (word2idGetD vocab w).toNat < vocab.length) := by
    intro w
    rw [word2idGetD, word2idGet]
    cases hf : vocab.findIdx? (fun v => decide (v = w)) with
    | none => simp
    | some i =>
      have hi : i < vocab.length :=
        (List.findIdx?_eq_some_iff_findIdx_eq.mp hf).1
      simp [hi]
  refine ⟨?_, ?_, rfl, by simp [nearbyIds], ?_⟩
  · intro w hw
    rw [word2idGetD, word2idGet]
    have : vocab.findIdx? (fun v => decide (v = w)) = none := by
      rw [List.findIdx?_eq_none_iff]
      intro v hv
      simpa using hw v hv
    rw [this]
    rfl
  · intro w i hwi
    rw [word2idGetD, hwi]
    rfl
  · intro id hid
    rcases hid with h | h
    · simp only [analogyWid, List.mem_cons, List.not_mem_nil, or_false] at h
      rcases h with rfl | rfl | rfl <;> exact hbase _
    · simp only [nearbyIds, List.mem_map] at h
      obtain ⟨w, _, rfl⟩ := h
      exact hbase w

/-- Witness for `interactiveLookup_spec`: over the scenario vocabulary a..f,
the unknown word `zz` maps to the sentinel 0 in an `analogy` query. -/
theorem interactiveLookup_spec_witness :
    word2idGetD scnVocab ['z', 'z'] = 0 :=
  (interactiveLookup_spec scnVocab ['z', 'z'] ['a'] ['b'] []).1
    ['z', 'z'] (by decide)

/-! ## Analogy prediction (`build_eval_graph`, lines 318-336, and `_predict`,
lines 395-402)

```
nemb = tf.nn.l2_normalize(self._w_in, 1)
a_emb = tf.gather(nemb, analogy_a)
b_emb = tf.gather(nemb, analogy_b)
c_emb = tf.gather(nemb, analogy_c)
target = c_emb + (b_emb - a_emb)
dist = tf.matmul(target, nemb, transpose_b=True)
_, pred_idx = tf.nn.top_k(dist, ANALOGY_COUNT)
```
`tf.nn.l2_normalize(x, 1)` divides each row by
`sqrt(max(sum(x^2), 1e-12))`; `tf.nn.top_k` returns the k largest entries
in descending order, breaking ties toward the lower index. -/

/-- A row of `tf.nn.l2_normalize(w_in, 1)`: the row divided by the square
root of its summed squares (floored at the epsilon 1e-12). -/
noncomputable def l2NormalizeRow {m : Nat} (v : Fin m → ℝ) : Fin m → ℝ :=
  fun i => v i / Real.sqrt (max (∑ j, v j ^ 2) (1 / 10 ^ 12))

/-- The row-normalized embedding matrix `nemb`. -/
noncomputable def nemb {V m : Nat} (wIn : Fin V → Fin m → ℝ) :
    Fin V → Fin m → ℝ :=
  fun r => l2NormalizeRow (wIn r)

/-- The per-question target vector `c_emb + (b_emb - a_emb)`. -/
noncomputable def analogyTarget {V m : Nat} (wIn : Fin V → Fin m → ℝ)
    (a b c : Fin V) : Fin m → ℝ :=
  fun i => nemb wIn c i + (nemb wIn b i - nemb wIn a i)

/-- Row `r` of `dist = matmul(target, nemb, transpose_b=True)`: the dot
product of the question's target with normalized vocabulary row `r`. -/
noncomputable def analogyDist {V m : Nat} (wIn : Fin V → Fin m → ℝ)
    (a b c : Fin V) (r : Fin V) : ℝ :=
  ∑ i, analogyTarget wIn a b c i * nemb wIn r i

/-- The ranking order of `tf.nn.top_k`: higher value first, ties broken
toward the lower index. -/
def topRel {V : Nat} (vals : Fin V → ℝ) (r s : Fin V) : Prop :=
  vals s < vals r ∨ (vals r = vals s ∧ r ≤ s)

instance topRel_isTotal {V : Nat} (vals : Fin V → ℝ) :
    IsTotal (Fin V) (topRel vals) := by
  constructor
  intro r s
  rcases lt_trichotomy (vals r) (vals s) with h | h | h
  · exact Or.inr (Or.inl h)
  · rcases le_total r s with hle | hle
    · exact Or.inl (Or.inr ⟨h, hle⟩)
    · exact Or.inr (Or.inr ⟨h.symm, hle⟩)
  · exact Or.inl (Or.inl h)

instance topRel_isTrans {V : Nat} (vals : Fin V → ℝ) :
    IsTrans (Fin V) (topRel vals) := by
  constructor
  rintro r s t (h1 | ⟨e1, le1⟩) (h2 | ⟨e2, le2⟩)
  · exact Or.inl (h2.trans h1)
  · exact Or.inl (e2 ▸ h1)
  · exact Or.inl (e1 ▸ h2)
  · exact Or.inr ⟨e1.trans e2, le1.trans le2⟩

open Classical in
/-- `tf.nn.top_k(vals, k)` index output: the first `k` vocabulary ids after
sorting all ids by descending value with lower-index tie-breaking. -/
noncomputable def topKIds {V : Nat} (vals : Fin V → ℝ) (k : Nat) :
    List (Fin V) :=
  (List.insertionSort (topRel vals) (List.finRange V)).take k

/-- `_predict` for one question `(a, b, c)`: the top-`ANALOGY_COUNT` ids by
dot product of the target against the normalized embedding matrix. -/
noncomputable def predictTop {V m : Nat} (wIn : Fin V → Fin m → ℝ)
    (a b c : Fin V) : List (Fin V) :=
  topKIds (analogyDist wIn a b c) ANALOGY_COUNT

/-- Claim C4: for a question `(a, b, c)`, `_predict` returns exactly 4
distinct vocabulary ids, listed in descending order of dot product against
the L2-normalized embedding matrix, every omitted id scoring no higher than
any returned one; the score of row `r` is the dot product of the target
`norm(c) + (norm(b) - norm(a))` with normalized row `r`; and each row of the
normalized matrix has unit squared norm (whenever the raw row's squared norm
is at least the `l2_normalize` epsilon 1e-12). -/
theorem predictTop_spec {V m : Nat} (wIn : Fin V → Fin m → ℝ) (a b c : Fin V)
    (hV : 4 ≤ V) :
    (predictTop wIn a b c).length = 4 ∧
    (predictTop wIn a b c).Nodup ∧
    (∀ r ∈ predictTop wIn a b c, ∀ s : Fin V, s ∉ predictTop wIn a b c →
      analogyDist wIn a b c s ≤ analogyDist wIn a b c r) ∧
    (predictTop wIn a b c).Sorted
      (fun r s => analogyDist wIn a b c s ≤ analogyDist wIn a b c r) ∧
    (∀ r, (1 : ℝ) / 10 ^ 12 ≤ ∑ j, wIn r j ^ 2 → ∑ i, nemb wIn r i ^ 2 = 1) ∧
    (∀ r, analogyDist wIn a b c r =
      ∑ i, (nemb wIn c i + (nemb wIn b i - nemb wIn a i)) * nemb wIn r i) := by
  classical
  set vals := analogyDist wIn a b c with hvals
  set L := List.insertionSort (topRel vals) (List.finRange V) with hL
  have hperm : L.Perm (List.finRange V) := List.perm_insertionSort _ _
  have hlen : L.length = V := by
    rw [hperm.length_eq, List.length_finRange]
  have hsorted : List.Pairwise (topRel vals) L := List.sorted_insertionSort _ _
  have hmemL : ∀ s : Fin V, s ∈ L := fun s =>
    hperm.mem_iff.mpr (List.mem_finRange s)
  have hsplit : List.Pairwise (topRel vals) (L.take 4 ++ L.drop 4) := by
    rwa [List.take_append_drop]
  obtain ⟨hpw_take, _, hcross⟩ := List.pairwise_append.mp hsplit
  have htake : predictTop wIn a b c = L.take 4 := rfl
  refine ⟨?_, ?_, ?_, ?_, ?_, fun r => rfl⟩
  · rw [htake, List.length_take, hlen]
    omega
  · rw [htake]
    exact List.Nodup.sublist (List.take_sublist 4 L)
      (hperm.symm.nodup (List.nodup_finRange V))
  · intro r hr s hs
    rw [htake] at hr hs
    have hsL : s ∈ L.take 4 ++ L.drop 4 := by
      rw [List.take_append_drop]; exact hmemL s
    have hsdrop : s ∈ L.drop 4 := by
      rcases List.mem_append.mp hsL with h | h
      · exact absurd h hs
      · exact h
    rcases hcross r hr s hsdrop with h | ⟨h, _⟩
    · exact h.le
    · exact h.ge
  · rw [htake]
    exact List.Pairwise.imp
      (fun h => by rcases h with h | ⟨h, _⟩; exacts [h.le, h.ge]) hpw_take
  · intro r hr
    have hS0 : (0 : ℝ) ≤ ∑ j, wIn r j ^ 2 :=
      Finset.sum_nonneg fun j _ => sq_nonneg _
    have hSpos : (0 : ℝ) < ∑ j, wIn r j ^ 2 := lt_of_lt_of_le (by positivity) hr
    have hmax : max (∑ j, wIn r j ^ 2) ((1 : ℝ) / 10 ^ 12) = ∑ j, wIn r j ^ 2 :=
      max_eq_left hr
    simp only [nemb, l2NormalizeRow, hmax, div_pow, ← Finset.sum_div,
      Real.sq_sqrt hS0]
    exact div_self hSpos.ne'

/-- Embedding matrix for the witness of `predictTop_spec`: four rows of the
single constant 1. -/
noncomputable def wit4 : Fin 4 → Fin 1 → ℝ := fun _ _ => 1

/-- Witness for `predictTop_spec` on a 4-word vocabulary with 1-dimensional
embeddings. -/
theorem predictTop_spec_witness :
    (predictTop wit4 0 1 2).length = 4 ∧
    ∑ i, nemb wit4 0 i ^ 2 = 1 := by
  refine ⟨(predictTop_spec wit4 0 1 2 (by norm_num)).1, ?_⟩
  refine (predictTop_spec wit4 0 1 2 (by norm_num)).2.2.2.2.1 0 ?_
  simp [wit4]
  norm_num
